import Mathlib

/-!
Verification development for the pic-viewer repository.

The repository is a Wails (Go + Vue/TypeScript) image viewer.  The Go
backend (`app.go`) provides `ListImages`, `ReadImage` and `ListSubfolders`;
the Vue component `ImageViewer.vue` owns the navigation state machine
(current folder, image list, index, preload slot, last-visited folder,
slideshow flags).  This file gives a shallow embedding of those parts and
proves the frozen claims about them.

Conventions used throughout:
* filesystem access is an explicit environment (a record of functions),
* Go / TypeScript exceptions are `Except`,
* the unbounded recursion of `ListSubfolders` over the directory tree is
  modelled with an explicit fuel parameter,
* JavaScript numbers holding indices are modelled as `Int`
  (the sentinel `-1` is meaningful in the source).
-/

namespace PicViewer

/-! ## Generic comparator machinery

`sort.Slice`, `sort.Strings` and the `natsort` comparator in the source
are modelled with `List.mergeSort` over `Ordering`-valued comparators.
The laws below are what `List.sorted_mergeSort` needs. -/

/-- Laws of a three-way comparator sufficient for sortedness proofs:
swap symmetry, transitivity of `lt`, and left-congruence of `eq`. -/
structure CmpLaws {α : Type} (c : α → α → Ordering) : Prop where
  swap_eq : ∀ a b, (c a b).swap = c b a
  lt_trans : ∀ a b x, c a b = .lt → c b x = .lt → c a x = .lt
  eq_left : ∀ a b x, c a b = .eq → c a x = c b x

theorem CmpLaws.eq_right {α : Type} {c : α → α → Ordering} (h : CmpLaws c)
    {a b : α} (x : α) (hab : c a b = .eq) : c x a = c x b := by
  have h1 : (c a b).swap = c b a := h.swap_eq a b
  rw [hab] at h1
  have h2 : c b x = c a x := h.eq_left b a x h1.symm
  have h3 := h.swap_eq a x
  have h4 := h.swap_eq b x
  rw [← h3, ← h4, h2]

/-- Three-way comparison on `Nat`, the base of the character and numeric
chunk comparisons. -/
def cmpN (a b : Nat) : Ordering :=
  if a < b then .lt else if b < a then .gt else .eq

theorem cmpN_laws : CmpLaws cmpN := by
  refine ⟨?_, ?_, ?_⟩
  · intro a b
    unfold cmpN
    rcases Nat.lt_trichotomy a b with h | h | h <;>
      simp [h, Nat.lt_asymm, Ordering.swap] <;> omega
  · intro a b x hab hbx
    unfold cmpN at *
    split at hab <;> split at hbx <;> simp_all <;> omega
  · intro a b x hab
    unfold cmpN at hab
    have hab' : a = b := by
      rcases Nat.lt_trichotomy a b with h | h | h
      · simp [h] at hab
      · exact h
      · simp [Nat.lt_asymm h, h] at hab
    rw [hab']

/-- Character comparison by code point (Go compares the underlying bytes;
for valid UTF-8 the byte order and the code-point order agree). -/
def cmpChar (a b : Char) : Ordering := cmpN a.toNat b.toNat

theorem cmpChar_laws : CmpLaws cmpChar := by
  refine ⟨?_, ?_, ?_⟩
  · intro a b; exact cmpN_laws.swap_eq _ _
  · intro a b x; exact cmpN_laws.lt_trans _ _ _
  · intro a b x; exact cmpN_laws.eq_left _ _ _

/-- Lexicographic extension of a comparator to lists. -/
def cmpList {α : Type} (c : α → α → Ordering) : List α → List α → Ordering
  | [], [] => .eq
  | [], _ :: _ => .lt
  | _ :: _, [] => .gt
  | a :: as, b :: bs =>
    match c a b with
    | .eq => cmpList c as bs
    | o => o

theorem cmpList_laws {α : Type} {c : α → α → Ordering} (h : CmpLaws c) :
    CmpLaws (cmpList c) := by
  constructor
  · intro a
    induction a with
    | nil => intro b; cases b <;> simp [cmpList, Ordering.swap]
    | cons x xs ih =>
      intro b
      cases b with
      | nil => simp [cmpList, Ordering.swap]
      | cons y ys =>
        simp only [cmpList]
        have hs := h.swap_eq x y
        cases hxy : c x y <;> rw [hxy] at hs <;>
            simp only [Ordering.swap] at hs <;> rw [← hs]
        · rfl
        · have hrec := ih ys
          cases hcc : cmpList c xs ys <;> rw [hcc] at hrec <;>
              simp only [Ordering.swap] at hrec <;> rw [← hrec] <;> rfl
        · rfl
  · intro a
    induction a with
    | nil =>
      intro b x hab hbx
      cases b with
      | nil => simp [cmpList] at hab
      | cons q qs =>
        cases x with
        | nil => simp [cmpList] at hbx
        | cons r rs => simp [cmpList]
    | cons p ps ih =>
      intro b x hab hbx
      cases b with
      | nil => simp [cmpList] at hab
      | cons q qs =>
        cases x with
        | nil => simp [cmpList] at hbx
        | cons r rs =>
          simp only [cmpList] at *
          cases hpq : c p q <;> rw [hpq] at hab <;> try simp_all
          · -- c p q = .lt
            cases hqr : c q r <;> rw [hqr] at hbx <;> try simp_all
            · rw [h.lt_trans p q r hpq hqr]
            · have := h.eq_right p hqr
              rw [← this, hpq]
          · -- c p q = .eq
            cases hqr : c q r <;> rw [hqr] at hbx <;> try simp_all
            · rw [h.eq_left p q r hpq, hqr]
            · have h1 := h.eq_left p q r hpq
              rw [h1, hqr]
              exact ih qs rs hab hbx
  · intro a
    induction a with
    | nil =>
      intro b x hab
      cases b <;> simp_all [cmpList]
    | cons p ps ih =>
      intro b x hab
      cases b with
      | nil => simp [cmpList] at hab
      | cons q qs =>
        simp only [cmpList] at hab
        have hpq : c p q = .eq ∧ cmpList c ps qs = .eq := by
          cases hc : c p q <;> rw [hc] at hab <;> simp_all
        cases x with
        | nil => simp [cmpList]
        | cons r rs =>
          simp only [cmpList]
          rw [h.eq_left p q r hpq.1, ih qs rs hpq.2]

/-- Boolean "less or equal" induced by a comparator, the shape
`List.mergeSort` consumes. -/
def cmpLeB {α : Type} (c : α → α → Ordering) (a b : α) : Bool :=
  (c a b).isLE

theorem cmpLeB_trans {α : Type} {c : α → α → Ordering} (h : CmpLaws c)
    (a b x : α) (hab : cmpLeB c a b = true) (hbx : cmpLeB c b x = true) :
    cmpLeB c a x = true := by
  unfold cmpLeB at *
  cases hpq : c a b <;> rw [hpq] at hab <;> try simp_all [Ordering.isLE]
  · cases hqr : c b x <;> rw [hqr] at hbx <;> try simp_all [Ordering.isLE]
    · rw [h.lt_trans a b x hpq hqr]
    · rw [← h.eq_right a hqr, hpq]
  · cases hqr : c b x <;> rw [hqr] at hbx <;> try simp_all [Ordering.isLE]
    · rw [h.eq_left a b x hpq, hqr]
    · rw [h.eq_left a b x hpq, hqr]

theorem cmpLeB_total {α : Type} {c : α → α → Ordering} (h : CmpLaws c)
    (a b : α) : (cmpLeB c a b || cmpLeB c b a) = true := by
  unfold cmpLeB
  have hs := h.swap_eq a b
  cases hab : c a b <;> rw [hab] at hs <;> simp [Ordering.swap] at hs <;>
    simp [hs.symm, Ordering.isLE]

/-! ## Sorting

Go's `sort.Slice` / `sort.Strings` promise a permutation of the input that
is sorted with respect to the supplied strict `less` function.  We model
them with a structurally recursive insertion sort over the complementary
non-strict comparison, which satisfies exactly that contract and evaluates
by kernel reduction on concrete inputs. -/

/-- Insert `a` into `l` before the first element `b` with `le a b`. -/
def insertLe {α : Type} (le : α → α → Bool) (a : α) : List α → List α
  | [] => [a]
  | b :: bs => if le a b then a :: b :: bs else b :: insertLe le a bs

/-- Insertion sort by the boolean comparison `le` (model of Go's sorts). -/
def sortLe {α : Type} (le : α → α → Bool) : List α → List α
  | [] => []
  | a :: as => insertLe le a (sortLe le as)

theorem mem_insertLe {α : Type} (le : α → α → Bool) (a x : α) :
    ∀ l : List α, x ∈ insertLe le a l ↔ x = a ∨ x ∈ l := by
  intro l
  induction l with
  | nil => simp [insertLe]
  | cons b bs ih =>
    simp only [insertLe]
    split
    · simp
    · simp only [List.mem_cons, ih]
      tauto

theorem mem_sortLe {α : Type} (le : α → α → Bool) (x : α) :
    ∀ l : List α, x ∈ sortLe le l ↔ x ∈ l := by
  intro l
  induction l with
  | nil => simp [sortLe]
  | cons a as ih => simp [sortLe, mem_insertLe, ih]

theorem pairwise_insertLe {α : Type} {le : α → α → Bool}
    (htrans : ∀ a b c, le a b = true → le b c = true → le a c = true)
    (htotal : ∀ a b, (le a b || le b a) = true)
    (a : α) : ∀ l : List α, l.Pairwise (fun x y => le x y = true) →
      (insertLe le a l).Pairwise (fun x y => le x y = true) := by
  intro l
  induction l with
  | nil => simp [insertLe]
  | cons b bs ih =>
    intro hp
    rw [List.pairwise_cons] at hp
    simp only [insertLe]
    split
    · rename_i hab
      rw [List.pairwise_cons]
      refine ⟨?_, List.pairwise_cons.mpr hp⟩
      intro x hx
      rcases List.mem_cons.mp hx with rfl | hx
      · exact hab
      · exact htrans a b x hab (hp.1 x hx)
    · rename_i hab
      have hba : le b a = true := by
        have := htotal a b
        simp [Bool.or_eq_true] at this
        rcases this with h | h
        · exact absurd h hab
        · exact h
      rw [List.pairwise_cons]
      refine ⟨?_, ih hp.2⟩
      intro x hx
      rcases (mem_insertLe le a x bs).mp hx with rfl | hx
      · exact hba
      · exact hp.1 x hx

theorem pairwise_sortLe {α : Type} {le : α → α → Bool}
    (htrans : ∀ a b c, le a b = true → le b c = true → le a c = true)
    (htotal : ∀ a b, (le a b || le b a) = true) :
    ∀ l : List α, (sortLe le l).Pairwise (fun x y => le x y = true) := by
  intro l
  induction l with
  | nil => simp [sortLe]
  | cons a as ih => exact pairwise_insertLe htrans htotal a _ ih

/-! ## The natural-order comparator

`ListSubfolders` sorts sibling folders with
`sort.Slice(children, func(i, j) { return
natsort.Compare(strings.ToLower(name_i), strings.ToLower(name_j)) })`.
The `natsort` package is an external dependency whose code is not part of
this repository; the comparator below is modelled from the spec: names are
split into maximal runs of decimal digits and runs of other characters;
digit runs compare by numeric value, other runs lexicographically by code
point, runs before comparison of the next pair, shorter chunk lists first.
A digit run sorts before a non-digit run (digits precede letters in
ASCII). -/

/-- One maximal run of a (lower-cased) name: a digit run read as its
numeric value, or a run of non-digit characters. -/
inductive Chunk where
  | num (n : Nat)
  | str (s : List Char)
deriving Repr, DecidableEq

/-- Extend the chunk list (kept newest-first) by one character. -/
def pushChar (acc : List Chunk) (c : Char) : List Chunk :=
  if c.isDigit then
    match acc with
    | Chunk.num n :: rest => Chunk.num (n * 10 + (c.toNat - 48)) :: rest
    | _ => Chunk.num (c.toNat - 48) :: acc
  else
    match acc with
    | Chunk.str s :: rest => Chunk.str (s ++ [c]) :: rest
    | _ => Chunk.str [c] :: acc

/-- Split a character list into digit / non-digit chunks. -/
def chunkify (cs : List Char) : List Chunk := (cs.foldl pushChar []).reverse

/-- Compare two chunks: numeric runs by value, other runs by code point. -/
def chunkCmp : Chunk → Chunk → Ordering
  | .num a, .num b => cmpN a b
  | .num _, .str _ => .lt
  | .str _, .num _ => .gt
  | .str a, .str b => cmpList cmpChar a b

theorem chunkCmp_laws : CmpLaws chunkCmp := by
  have hc := cmpList_laws cmpChar_laws
  refine ⟨?_, ?_, ?_⟩
  · intro a b
    cases a <;> cases b <;> simp only [chunkCmp]
    · exact cmpN_laws.swap_eq _ _
    · rfl
    · rfl
    · exact hc.swap_eq _ _
  · intro a b x hab hbx
    cases a <;> cases b <;> cases x <;> simp_all [chunkCmp]
    · exact cmpN_laws.lt_trans _ _ _ hab hbx
    · exact hc.lt_trans _ _ _ hab hbx
  · intro a b x hab
    cases a with
    | num na =>
      cases b with
      | num nb =>
        have hab' : cmpN na nb = .eq := by simpa [chunkCmp] using hab
        cases x with
        | num nx => simpa [chunkCmp] using cmpN_laws.eq_left na nb nx hab'
        | str sx => simp [chunkCmp]
      | str sb => simp [chunkCmp] at hab
    | str sa =>
      cases b with
      | num nb => simp [chunkCmp] at hab
      | str sb =>
        have hab' : cmpList cmpChar sa sb = .eq := by simpa [chunkCmp] using hab
        cases x with
        | num nx => simp [chunkCmp]
        | str sx => simpa [chunkCmp] using hc.eq_left sa sb sx hab'

/-- Case-insensitive natural-order key of a name. -/
def natKey (s : String) : List Chunk := chunkify (s.toList.map Char.toLower)

/-- Case-insensitive natural-order "less or equal" on names (spec-modelled
complement of the external `natsort.Compare` strict order). -/
def natLeB (a b : String) : Bool := cmpLeB (cmpList chunkCmp) (natKey a) (natKey b)

theorem natLeB_trans (a b c : String) (hab : natLeB a b = true)
    (hbc : natLeB b c = true) : natLeB a c = true :=
  cmpLeB_trans (cmpList_laws chunkCmp_laws) _ _ _ hab hbc

theorem natLeB_total (a b : String) : (natLeB a b || natLeB b a) = true :=
  cmpLeB_total (cmpList_laws chunkCmp_laws) _ _

/-- Plain byte-wise lexicographic "less or equal" on strings, the order of
Go's `sort.Strings` (code-point order coincides with byte order for UTF-8). -/
def strLe (a b : String) : Bool := cmpLeB (cmpList cmpChar) a.toList b.toList

theorem strLe_trans (a b c : String) (hab : strLe a b = true)
    (hbc : strLe b c = true) : strLe a c = true :=
  cmpLeB_trans (cmpList_laws cmpChar_laws) _ _ _ hab hbc

theorem strLe_total (a b : String) : (strLe a b || strLe b a) = true :=
  cmpLeB_total (cmpList_laws cmpChar_laws) _ _

/-! ## Filesystem model and the Go backend (`app.go`)

`os.Stat` and `os.ReadDir` become an explicit environment.  `stat` returns
whether the path is a directory, or the stat error; `readDir` returns the
directory entries (name plus directory flag), or the read error. -/

/-- One entry of a directory listing, as seen by `os.ReadDir` /
`filepath.WalkDir`. -/
structure DirEntry where
  name : String
  isDir : Bool
deriving Repr, DecidableEq

/-- The filesystem as the Go backend observes it. -/
structure FS where
  stat : String → Except String Bool
  readDir : String → Except String (List DirEntry)

/-- The `Folder` tree value `ListSubfolders` produces
(`{name, path, children}`). -/
inductive Folder where
  | mk (name : String) (path : String) (children : List Folder)
deriving Repr

def Folder.name : Folder → String
  | .mk n _ _ => n

def Folder.path : Folder → String
  | .mk _ p _ => p

def Folder.children : Folder → List Folder
  | .mk _ _ cs => cs

/-- Model of `filepath.Join` restricted to the joins the code performs
(a clean directory path plus an entry name). -/
def joinPath (base name : String) : String := base ++ ("/" : String) ++ name

/-- Model of `filepath.Base`: the last `/`-separated segment. -/
def baseName (p : String) : String :=
  String.mk (p.toList.foldl (fun acc c => if c = '/' then [] else acc ++ [c]) [])

/-- Comparison used on sibling folders: the spec-modelled natural order of
the lower-cased names (see `natLeB`). -/
def folderNatLe (x y : Folder) : Bool := natLeB x.name y.name

/-- Model of `strings.HasPrefix(name, ".")`: hidden-directory check. -/
def startsWithDot (s : String) : Bool :=
  match s.toList with
  | c :: _ => c = '.'
  | [] => false

/-- The child-collection loop of `ListSubfolders`, abstracted over the
recursive call: keep directory entries whose name does not start with `.`,
recurse, and skip (only log) entries whose recursive build fails. -/
def buildChildrenWith (rec : String → Except String Folder) (basePath : String) :
    List DirEntry → List Folder
  | [] => []
  | e :: rest =>
    if e.isDir && !(startsWithDot e.name) then
      match rec (joinPath basePath e.name) with
      | .error _ => buildChildrenWith rec basePath rest
      | .ok child => child :: buildChildrenWith rec basePath rest
    else buildChildrenWith rec basePath rest

/-- Model of `App.ListSubfolders` (app.go): stat the path (stat failure or
a non-directory is a returned error); read it (a read failure is logged
and yields the node with no children); recurse into non-hidden
subdirectory entries, dropping any child whose recursive build fails; sort
the surviving children by case-insensitive natural name order.  The
unbounded recursion over the directory tree carries explicit fuel; every
claim quantifies over sufficient fuel. -/
def listSubfolders (fs : FS) : Nat → String → Except String Folder
  | 0, _ => .error ("recursion budget exhausted")
  | fuel + 1, basePath =>
    match fs.stat basePath with
    | .error e => .error ("failed to stat base path '" ++ basePath ++ ("': ") ++ e)
    | .ok false => .error ("'" ++ basePath ++ ("' is not a directory"))
    | .ok true =>
      match fs.readDir basePath with
      | .error _ => .ok (.mk (baseName basePath) basePath [])
      | .ok entries =>
        .ok (.mk (baseName basePath) basePath
          (sortLe folderNatLe (buildChildrenWith (listSubfolders fs fuel) basePath entries)))

/-- Extension allow-list of `ListImages` (app.go). -/
def validExtensions : List String :=
  [(".jpg"), (".jpeg"), (".png"), (".gif"), (".bmp"), (".webp"), (".raf")]

/-- Suffix of a character list starting at its last `.` (empty if none). -/
def extAux : List Char → List Char
  | [] => []
  | c :: rest =>
    let tailExt := extAux rest
    if tailExt.isEmpty then (if c = '.' then c :: rest else []) else tailExt

/-- Model of `filepath.Ext` on a file name (no separators): the suffix
beginning at the final dot, empty when the name has no dot. -/
def extOf (name : String) : String := String.mk (extAux name.toList)

/-- Character-wise lower-casing (model of `strings.ToLower`). -/
def lowerStr (s : String) : String := String.mk (s.toList.map Char.toLower)

/-- Does a file name carry an allow-listed image extension
(`strings.ToLower(filepath.Ext(path))` membership)? -/
def isValidExt (name : String) : Bool := validExtensions.contains (lowerStr (extOf name))

/-- The per-directory loop of the `filepath.WalkDir` traversal inside
`ListImages`, abstracted over the recursive call: files are collected when
they sit directly in `dirPath` (`filepath.Dir(path) == dirPath`) and carry
an allow-listed extension; subdirectory entries are descended into, and
any error from the descent aborts the whole walk (the callback returns the
error it receives). -/
def walkEntriesWith (rec : String → Except String (List String))
    (dirPath cur : String) : List DirEntry → Except String (List String)
  | [] => .ok []
  | e :: rest =>
    if e.isDir then
      match rec (joinPath cur e.name) with
      | .error err => .error err
      | .ok collected =>
        match walkEntriesWith rec dirPath cur rest with
        | .error err => .error err
        | .ok more => .ok (collected ++ more)
    else
      match walkEntriesWith rec dirPath cur rest with
      | .error err => .error err
      | .ok more =>
        .ok ((if cur = dirPath && isValidExt e.name
              then [joinPath cur e.name] else []) ++ more)

/-- The `filepath.WalkDir` traversal of `ListImages`, rooted at `dirPath`
and currently visiting `cur`: read the directory (a read failure anywhere —
the root or any descendant — is returned and aborts the walk) and process
its entries.  Fuel bounds the recursion depth over the directory tree. -/
def walkImages (fs : FS) (dirPath : String) : Nat → String → Except String (List String)
  | 0, _ => .error ("recursion budget exhausted")
  | fuel + 1, cur =>
    match fs.readDir cur with
    | .error e => .error e
    | .ok entries => walkEntriesWith (walkImages fs dirPath fuel) dirPath cur entries

/-- Model of `App.ListImages` (app.go): walk the directory tree under
`dirPath` with `filepath.WalkDir`, collecting the direct (non-directory)
children of `dirPath` whose extension is allow-listed case-insensitively,
as full paths, and sort them byte-wise lexicographically (`sort.Strings`).
A failure to read `dirPath` itself or any descendant directory aborts the
walk and is returned as the error. -/
def listImages (fs : FS) (fuel : Nat) (dirPath : String) : Except String (List String) :=
  match walkImages fs dirPath fuel dirPath with
  | .error e => .error e
  | .ok files => .ok (sortLe strLe files)

/-- Boolean chain check: every adjacent pair satisfies `le`. -/
def chainLeB {α : Type} (le : α → α → Bool) : List α → Bool
  | [] => true
  | [_] => true
  | a :: b :: rest => le a b && chainLeB le (b :: rest)

mutual

/-- Every node of the tree has its children in natural name order. -/
def allSortedB : Folder → Bool
  | .mk _ _ cs => chainLeB folderNatLe cs && allSortedListB cs

def allSortedListB : List Folder → Bool
  | [] => true
  | c :: cs => allSortedB c && allSortedListB cs

end

theorem chainLeB_of_pairwise {α : Type} {le : α → α → Bool} :
    ∀ {l : List α}, l.Pairwise (fun x y => le x y = true) → chainLeB le l = true := by
  intro l
  induction l with
  | nil => intro _; rfl
  | cons a as ih =>
    intro hp
    rw [List.pairwise_cons] at hp
    cases as with
    | nil => rfl
    | cons b bs =>
      have hab : le a b = true := hp.1 b (List.mem_cons_self b bs)
      simp [chainLeB, hab, ih hp.2]

theorem allSortedListB_eq_all :
    ∀ l : List Folder, allSortedListB l = true ↔ ∀ c ∈ l, allSortedB c = true := by
  intro l
  induction l with
  | nil => simp [allSortedListB]
  | cons c cs ih => simp [allSortedListB, ih]

theorem folderNatLe_trans (x y z : Folder) (h1 : folderNatLe x y = true)
    (h2 : folderNatLe y z = true) : folderNatLe x z = true :=
  natLeB_trans _ _ _ h1 h2

theorem folderNatLe_total (x y : Folder) :
    (folderNatLe x y || folderNatLe y x) = true :=
  natLeB_total _ _

theorem mem_buildChildrenWith {rec : String → Except String Folder}
    {basePath : String} :
    ∀ {entries : List DirEntry} {c : Folder},
      c ∈ buildChildrenWith rec basePath entries → ∃ q, rec q = .ok c := by
  intro entries
  induction entries with
  | nil => intro c h; simp [buildChildrenWith] at h
  | cons e rest ih =>
    intro c h
    simp only [buildChildrenWith] at h
    split at h
    · split at h
      · exact ih h
      · rename_i child hchild
        rcases List.mem_cons.mp h with rfl | h
        · exact ⟨joinPath basePath e.name, hchild⟩
        · exact ih h
    · exact ih h

/-- A failed recursive child build contributes nothing: the entry is
skipped and the remaining siblings are unaffected. -/
theorem buildChildrenWith_skip {rec : String → Except String Folder}
    {basePath : String} {e : DirEntry} {msg : String}
    (hfail : rec (joinPath basePath e.name) = .error msg) :
    ∀ entries : List DirEntry,
      buildChildrenWith rec basePath (e :: entries) =
        buildChildrenWith rec basePath entries := by
  intro entries
  simp only [buildChildrenWith]
  split
  · rw [hfail]
  · rfl

/-- Every tree `ListSubfolders` returns has all its children lists in
case-insensitive natural name order, at every node. -/
theorem listSubfolders_allSorted (fs : FS) :
    ∀ (fuel : Nat) (p : String) (t : Folder),
      listSubfolders fs fuel p = .ok t → allSortedB t = true := by
  intro fuel
  induction fuel with
  | zero => intro p t h; simp [listSubfolders] at h
  | succ fuel ih =>
    intro p t h
    simp only [listSubfolders] at h
    split at h
    · exact absurd h (by simp)
    · exact absurd h (by simp)
    · split at h
      · rw [Except.ok.injEq] at h
        subst h
        rfl
      · rw [Except.ok.injEq] at h
        subst h
        simp only [allSortedB, Bool.and_eq_true]
        constructor
        · exact chainLeB_of_pairwise
            (pairwise_sortLe folderNatLe_trans folderNatLe_total _)
        · rw [allSortedListB_eq_all]
          intro c hc
          rw [mem_sortLe] at hc
          obtain ⟨q, hq⟩ := mem_buildChildrenWith hc
          exact ih q c hq

/-! ## `ReadImage` on `.raf` files

`App.ReadImage` (app.go) special-cases `.raf`: it calls the external
extractor `raw.ReadRAF` under a `defer`/`recover` that converts a panic
into a normal error return.  The extractor's behaviour is an input of the
model: it either returns (possibly nil / empty) data or panics. -/

/-- Base64 alphabet used by `encoding/base64.StdEncoding`. -/
def base64Table : List Char :=
  ("ABCDEFGHIJKLMNOPQRSTUVWXYZabcdefghijklmnopqrstuvwxyz0123456789+/").toList

def b64Char (n : Nat) : Char := base64Table.getD n '?'

/-- Standard base64: three bytes become four alphabet characters, a short
final group is `=`-padded. -/
def base64Chunks : List Nat → List Char
  | [] => []
  | [a] => [b64Char (a / 4), b64Char ((a % 4) * 16), '=', '=']
  | [a, b] => [b64Char (a / 4), b64Char ((a % 4) * 16 + b / 16), b64Char ((b % 16) * 4), '=']
  | a :: b :: c :: rest =>
    [b64Char (a / 4), b64Char ((a % 4) * 16 + b / 16),
     b64Char ((b % 16) * 4 + c / 64), b64Char (c % 64)] ++ base64Chunks rest

def base64Encode (bytes : List Nat) : String := String.mk (base64Chunks bytes)

/-- Return value of the external `raw.ReadRAF` (`Jpeg` byte slice). -/
structure RafData where
  jpeg : List Nat
deriving Repr, DecidableEq

/-- What a call to the external extractor does: panic, or return a
possibly-nil result. -/
inductive RafOutcome where
  | panics (msg : String)
  | returns (d : Option RafData)
deriving Repr, DecidableEq

/-- The extractor as an environment. -/
structure RafEnv where
  readRAF : String → RafOutcome

/-- Model of the `.raf` branch of `App.ReadImage` (app.go), including the
`defer`/`recover` boundary: a panic inside `raw.ReadRAF` is recovered and
becomes `("", some errorMessage)`; nil or empty data becomes an extraction
error; otherwise the embedded JPEG is returned base64-encoded as a data
URI.  The function is total: the call always returns normally. -/
def readImageRaf (env : RafEnv) (filePath : String) : String × Option String :=
  match env.readRAF filePath with
  | .panics r =>
    ((""), some (("panic occurred while decoding RAF file ") ++ filePath ++ (": ") ++ r))
  | .returns none =>
    ((""), some (("failed to extract JPEG from RAF file ") ++ filePath))
  | .returns (some rafData) =>
    if rafData.jpeg.length = 0 then
      ((""), some (("failed to extract JPEG from RAF file ") ++ filePath))
    else
      ((("data:image/jpeg;base64,") ++ base64Encode rafData.jpeg), none)

/-! ## The navigation state machine (`ImageViewer.vue`)

The reactive refs of the component become one state record; the Wails
calls `ListImages` / `ReadImage` become an environment of fallible
functions.  Await points are modelled synchronously: every claim's
operation runs to completion before the next one starts (the spec's §5
cooperative model).  Presentation-only state (zoom level, loading
spinners) is not modelled; `isTreeLoading` is kept because navigation
operations guard on it.  `Math.random()`-based draws enter as explicit
parameters: a plain `Nat` models the accepted result of a resampling
`do`/`while` loop, and a function `Nat → Nat` (length to index) models a
single `floor(Math.random() * length)` draw. -/

inductive SlideshowMode where
  | sequence
  | randomFolder
  | randomAll
deriving Repr, DecidableEq

/-- The component state: one field per reactive ref that participates in
navigation. -/
structure ViewerState where
  currentFolder : String
  images : List String
  currentIndex : Int
  currentImageSrc : String
  isTreeLoading : Bool
  slideshowActive : Bool
  slideshowMode : SlideshowMode
  flatFolderList : List String
  leafFolderList : List String
  lastVisitedFolder : String
  preloadedImageSrc : String
  preloadedIndex : Int
  preloadedFolder : String
deriving Repr, DecidableEq

/-- The Wails backend as the component sees it. -/
structure Env where
  listImages : String → Except String (List String)
  readImage : String → Except String String

/-- State right after component creation (the refs' initial values). -/
def initialState : ViewerState where
  currentFolder := ""
  images := []
  currentIndex := -1
  currentImageSrc := ""
  isTreeLoading := false
  slideshowActive := false
  slideshowMode := .sequence
  flatFolderList := []
  leafFolderList := []
  lastVisitedFolder := ""
  preloadedImageSrc := ""
  preloadedIndex := -1
  preloadedFolder := ""

/-- Reset the three `preloaded*` refs (the clearing idiom repeated through
the component). -/
def clearPreload (s : ViewerState) : ViewerState :=
  { s with preloadedImageSrc := "", preloadedIndex := -1, preloadedFolder := "" }

/-- Model of `stopSlideshow()`: clear the interval and the active flag
(the interval handle is represented by the flag). -/
def stopSlideshow (s : ViewerState) : ViewerState :=
  { s with slideshowActive := false }

/-- The folder-scan shared by `nextImage`, `preloadNextImage` and
`hasNextLeafFolder`: from the current folder's position in the flat list,
the first later entry that is also a leaf. -/
def findNextLeafFolder (flat leaf : List String) (current : String) : Option String :=
  if current ∈ flat then
    (flat.drop (List.indexOf current flat + 1)).find? (fun p => decide (p ∈ leaf))
  else none

/-- Model of `preloadNextImage()`: disabled during non-sequence slideshows;
otherwise clear the slot, compute the position a sequential advance would
reach (next index in folder, or first image of the next leaf folder), read
that image, and fill the slot on success.  All failures leave the slot
empty. -/
def preloadNextImage (env : Env) (s : ViewerState) : ViewerState :=
  if s.slideshowActive && !(s.slideshowMode = .sequence) then clearPreload s
  else
    let s := clearPreload s
    if s.images.length < 1 && s.flatFolderList.length < 1 then s
    else
      if s.images.length = 0 || s.currentIndex + 1 ≥ (s.images.length : Int) then
        match findNextLeafFolder s.flatFolderList s.leafFolderList s.currentFolder with
        | none => s
        | some f =>
          match env.listImages f with
          | .error _ => s
          | .ok imgs =>
            if imgs.length > 0 then
              let path := imgs.getD 0 ""
              if path = "" then s
              else
                match env.readImage path with
                | .ok data =>
                  { s with preloadedImageSrc := data, preloadedIndex := 0,
                           preloadedFolder := f }
                | .error _ => s
            else s
      else
        let path := s.images.getD (s.currentIndex + 1).toNat ""
        if path = "" then s
        else
          match env.readImage path with
          | .ok data =>
            { s with preloadedImageSrc := data, preloadedIndex := s.currentIndex + 1,
                     preloadedFolder := s.currentFolder }
          | .error _ => s

/-- Model of `displayCurrentImage()`: read and show `images[currentIndex]`
when the index is in range (then kick off a preload), clear the shown image
otherwise (and, in sequence mode, still try to preload). -/
def displayCurrentImage (env : Env) (s : ViewerState) : ViewerState :=
  if 0 ≤ s.currentIndex ∧ s.currentIndex < (s.images.length : Int) then
    match env.readImage (s.images.getD s.currentIndex.toNat "") with
    | .ok data => preloadNextImage env { s with currentImageSrc := data }
    | .error _ => clearPreload { s with currentImageSrc := "" }
  else
    let s := { s with currentImageSrc := "" }
    if s.slideshowMode = .sequence then preloadNextImage env s else s

/-- Model of `loadImagesForPath(folderPath)`: stop any slideshow, switch
the current folder, clear the preload slot, list the folder's images and
show the first (index `0`, or `-1` and no image when the list is empty or
the listing fails). -/
def loadImagesForPath (env : Env) (folderPath : String) (s : ViewerState) : ViewerState :=
  if folderPath = "" then s
  else
    let s := stopSlideshow s
    let s := clearPreload { s with currentFolder := folderPath }
    match env.listImages folderPath with
    | .ok imgs =>
      displayCurrentImage env
        { s with images := imgs, currentIndex := if imgs.length > 0 then 0 else -1 }
    | .error _ => { s with images := [], currentIndex := -1, currentImageSrc := "" }

/-- Model of `handleFolderSelected(selectedPath)`: no-op on an empty path
or on re-selecting the current folder; otherwise record the folder being
left in `lastVisitedFolder`, load the target folder, and clear the preload
slot. -/
def handleFolderSelected (env : Env) (selectedPath : String) (s : ViewerState) : ViewerState :=
  if selectedPath = "" then s
  else if selectedPath = s.currentFolder then s
  else
    let s :=
      if s.currentFolder ≠ "" ∧ s.currentFolder ≠ selectedPath then
        { s with lastVisitedFolder := s.currentFolder }
      else s
    clearPreload (loadImagesForPath env selectedPath s)

/-- Model of `goToLastVisitedFolder()`: no-op when no last-visited folder
is recorded (or while the tree is loading); otherwise select it. -/
def goToLastVisitedFolder (env : Env) (s : ViewerState) : ViewerState :=
  if s.lastVisitedFolder = "" || s.isTreeLoading then s
  else handleFolderSelected env s.lastVisitedFolder s

/-- Model of `nextImage()`: advance within the folder when possible;
otherwise scan for the next leaf folder in flat order — if none exists,
stop any slideshow and do nothing else; if one exists, switch to it at
index `0`, consuming the preload slot when it matches, else loading via
`handleFolderSelected`.  Within the folder, a matching slot is consumed
only in sequence mode.  In the slot-consuming folder switch the image list
of the new folder is re-listed; a failure of that listing aborts the
remaining assignments (the `await` rejects), keeping the partial update. -/
def nextImage (env : Env) (s : ViewerState) : ViewerState :=
  if s.images.length = 0 && s.flatFolderList.length = 0 then s
  else
    let targetIdx : Int := s.currentIndex + 1
    if s.images.length = 0 || targetIdx ≥ (s.images.length : Int) then
      match findNextLeafFolder s.flatFolderList s.leafFolderList s.currentFolder with
      | none => stopSlideshow s
      | some f =>
        if f = s.preloadedFolder ∧ (0 : Int) = s.preloadedIndex ∧ s.preloadedImageSrc ≠ "" then
          let s := { s with currentImageSrc := s.preloadedImageSrc, currentFolder := f }
          match env.listImages f with
          | .error _ => s
          | .ok imgs =>
            preloadNextImage env (clearPreload { s with images := imgs, currentIndex := 0 })
        else
          handleFolderSelected env f s
    else
      if s.slideshowMode = .sequence ∧ targetIdx = s.preloadedIndex ∧
          s.currentFolder = s.preloadedFolder ∧ s.preloadedImageSrc ≠ "" then
        preloadNextImage env
          (clearPreload { s with currentImageSrc := s.preloadedImageSrc, currentIndex := targetIdx })
      else
        displayCurrentImage env { s with currentIndex := targetIdx }

/-- Model of `prevImage()`: nothing on an empty list; otherwise clear the
preload slot, step back one index, wrapping to the last index of the same
folder from index `0`, and display. -/
def prevImage (env : Env) (s : ViewerState) : ViewerState :=
  if s.images.length = 0 then s
  else
    let s := clearPreload s
    let t : Int := s.currentIndex - 1
    let t := if t < 0 then (s.images.length : Int) - 1 else t
    displayCurrentImage env { s with currentIndex := t }

/-- Model of `goToNextLeafFolder()`: needs at least two leaf folders; from
a non-leaf current folder go to the first leaf; otherwise step forward in
the leaf list, clamped at the end. -/
def goToNextLeafFolder (env : Env) (s : ViewerState) : ViewerState :=
  if s.leafFolderList.length < 2 || s.isTreeLoading then s
  else
    if s.currentFolder ∈ s.leafFolderList then
      let nextLeafIndex := List.indexOf s.currentFolder s.leafFolderList + 1
      if nextLeafIndex < s.leafFolderList.length then
        handleFolderSelected env (s.leafFolderList.getD nextLeafIndex "") s
      else s
    else handleFolderSelected env (s.leafFolderList.getD 0 "") s

/-- Model of `goToPrevLeafFolder()`: needs at least two leaf folders; from
a non-leaf current folder go to the last leaf; otherwise step backward in
the leaf list, clamped at the start. -/
def goToPrevLeafFolder (env : Env) (s : ViewerState) : ViewerState :=
  if s.leafFolderList.length < 2 || s.isTreeLoading then s
  else
    if s.currentFolder ∈ s.leafFolderList then
      let currentLeafIndex := List.indexOf s.currentFolder s.leafFolderList
      if 0 < currentLeafIndex then
        handleFolderSelected env (s.leafFolderList.getD (currentLeafIndex - 1) "") s
      else s
    else handleFolderSelected env (s.leafFolderList.getD (s.leafFolderList.length - 1) "") s

/-- Model of `goToRandomFolder()`: with more than one leaf folder, `r` is
the accepted draw of the resampling loop (an index whose folder differs
from the current one); with exactly one, that folder is selected
unconditionally. -/
def goToRandomFolder (env : Env) (r : Nat) (s : ViewerState) : ViewerState :=
  if s.leafFolderList.length = 0 || s.isTreeLoading then s
  else
    let randomFolder :=
      if s.leafFolderList.length > 1 then s.leafFolderList.getD r ""
      else s.leafFolderList.getD 0 ""
    if randomFolder ≠ "" then handleFolderSelected env randomFolder s else s

/-- Model of `displayRandomImageInFolder()` (random-folder slideshow tick):
`r` is the accepted draw of the resampling loop; with a single image the
index is `0`. -/
def displayRandomImageInFolder (env : Env) (r : Nat) (s : ViewerState) : ViewerState :=
  if s.images.length < 1 then s
  else
    let randomIndex : Int := if s.images.length = 1 then 0 else (r : Int)
    displayCurrentImage env { s with currentIndex := randomIndex }

/-- Model of `displayRandomImageInAllFolders()` (random-all slideshow
tick): draw a leaf folder (`rf` is the draw), list it, and when non-empty
draw an image index (`rand` applied to the listed length) and read that
image, replacing folder, list and index wholesale; an empty drawn folder
changes nothing; a listing or read failure clears the image state. -/
def displayRandomImageInAllFolders (env : Env) (rf : Nat) (rand : Nat → Nat)
    (s : ViewerState) : ViewerState :=
  if s.leafFolderList.length = 0 then s
  else
    let randomFolderPath := s.leafFolderList.getD rf ""
    match env.listImages randomFolderPath with
    | .error _ => { s with currentImageSrc := "", images := [], currentIndex := -1 }
    | .ok imgs =>
      if imgs.length > 0 then
        let ri := rand imgs.length
        let s := { s with currentFolder := randomFolderPath, images := imgs,
                          currentIndex := (ri : Int) }
        match env.readImage (imgs.getD ri "") with
        | .ok data => { s with currentImageSrc := data }
        | .error _ => { s with currentImageSrc := "", images := [], currentIndex := -1 }
      else s

/-! ## Invariants

`IndexInv` is the position invariant of the spec.  `SlotOk` and `ImgsOk`
are the auxiliary consistency facts that make it inductive: the preload
slot, when filled, describes a real position of its folder's current
listing, and the image list (when non-empty) is the current folder's
listing.  All three hold in the initial state and are preserved by every
operation. -/

/-- Position invariant: `0 <= index < len(images)` when `images` is
non-empty, and `index == -1` iff `images` is empty. -/
def IndexInv (s : ViewerState) : Prop :=
  (s.images ≠ [] → 0 ≤ s.currentIndex ∧ s.currentIndex < (s.images.length : Int))
  ∧ (s.currentIndex = -1 ↔ s.images = [])

/-- A filled preload slot points at an in-range index of its folder's
listing. -/
def SlotOk (env : Env) (s : ViewerState) : Prop :=
  s.preloadedImageSrc ≠ "" →
    ∃ imgs, env.listImages s.preloadedFolder = .ok imgs ∧
      0 ≤ s.preloadedIndex ∧ s.preloadedIndex < (imgs.length : Int)

/-- A non-empty image list is the current folder's listing. -/
def ImgsOk (env : Env) (s : ViewerState) : Prop :=
  s.images = [] ∨ env.listImages s.currentFolder = .ok s.images

/-- The inductive invariant of the navigation state machine. -/
def Inv (env : Env) (s : ViewerState) : Prop :=
  IndexInv s ∧ SlotOk env s ∧ ImgsOk env s

/-- Equality of everything except the shown image and the preload slot. -/
def SamePos (s t : ViewerState) : Prop :=
  t.currentFolder = s.currentFolder ∧ t.images = s.images ∧
  t.currentIndex = s.currentIndex ∧ t.slideshowActive = s.slideshowActive ∧
  t.slideshowMode = s.slideshowMode ∧ t.flatFolderList = s.flatFolderList ∧
  t.leafFolderList = s.leafFolderList ∧ t.lastVisitedFolder = s.lastVisitedFolder ∧
  t.isTreeLoading = s.isTreeLoading

theorem samePos_refl (s : ViewerState) : SamePos s s := by
  unfold SamePos
  exact ⟨rfl, rfl, rfl, rfl, rfl, rfl, rfl, rfl, rfl⟩

theorem samePos_trans {a b c : ViewerState} (h1 : SamePos a b) (h2 : SamePos b c) :
    SamePos a c := by
  unfold SamePos at *
  obtain ⟨e1, e2, e3, e4, e5, e6, e7, e8, e9⟩ := h1
  obtain ⟨f1, f2, f3, f4, f5, f6, f7, f8, f9⟩ := h2
  exact ⟨f1.trans e1, f2.trans e2, f3.trans e3, f4.trans e4, f5.trans e5,
    f6.trans e6, f7.trans e7, f8.trans e8, f9.trans e9⟩

theorem preload_samePos (env : Env) (s : ViewerState) :
    SamePos s (preloadNextImage env s) := by
  unfold SamePos
  simp only [preloadNextImage, clearPreload]
  repeat' split
  all_goals exact ⟨rfl, rfl, rfl, rfl, rfl, rfl, rfl, rfl, rfl⟩

theorem display_samePos (env : Env) (s : ViewerState) :
    SamePos s (displayCurrentImage env s) := by
  simp only [displayCurrentImage]
  split
  · split
    · exact samePos_trans (by unfold SamePos; simp) (preload_samePos env _)
    · unfold SamePos clearPreload; simp
  · split
    · exact samePos_trans (by unfold SamePos; simp) (preload_samePos env _)
    · unfold SamePos; simp

theorem indexInv_of_samePos {s t : ViewerState} (h : SamePos s t)
    (hi : IndexInv s) : IndexInv t := by
  unfold IndexInv at *
  rw [h.2.1, h.2.2.1]
  exact hi

theorem imgsOk_of_samePos {env : Env} {s t : ViewerState} (h : SamePos s t)
    (hi : ImgsOk env s) : ImgsOk env t := by
  unfold ImgsOk at *
  rw [h.2.1, h.1]
  exact hi

theorem slotOk_of_cleared {env : Env} {s : ViewerState}
    (h : s.preloadedImageSrc = "") : SlotOk env s := by
  unfold SlotOk
  intro hne
  exact absurd h hne

/-- `preloadNextImage` establishes the full invariant from the position
and listing facts alone: it only ever fills the slot with a position it
just validated against the environment. -/
theorem preload_inv (env : Env) (s : ViewerState) (h1 : IndexInv s)
    (h2 : ImgsOk env s) : Inv env (preloadNextImage env s) := by
  refine ⟨indexInv_of_samePos (preload_samePos env s) h1,
    ?_, imgsOk_of_samePos (preload_samePos env s) h2⟩
  simp only [preloadNextImage, clearPreload]
  split
  · exact slotOk_of_cleared rfl
  · split
    · exact slotOk_of_cleared rfl
    · split
      · split
        · exact slotOk_of_cleared rfl
        · rename_i f hf
          split
          · exact slotOk_of_cleared rfl
          · rename_i imgs himgs
            split
            · rename_i hlen
              split
              · exact slotOk_of_cleared rfl
              · split
                · rename_i data hdata
                  intro _
                  dsimp only
                  refine ⟨imgs, himgs, by simp, by exact_mod_cast hlen⟩
                · exact slotOk_of_cleared rfl
            · exact slotOk_of_cleared rfl
      · rename_i hscan
        split
        · exact slotOk_of_cleared rfl
        · split
          · rename_i data hdata
            intro _
            dsimp only
            simp only [decide_eq_true_eq, Bool.or_eq_true, not_or] at hscan
            have hne : s.images ≠ [] := by
              intro hnil
              rw [hnil] at hscan
              simp at hscan
            have hidx := h1.1 hne
            rcases h2 with hnil | hok
            · exact absurd hnil hne
            · refine ⟨s.images, hok, by omega, by omega⟩
          · exact slotOk_of_cleared rfl

/-- Slot-field equality, for transporting `SlotOk` over updates that do
not touch the preload slot. -/
def SameSlot (s t : ViewerState) : Prop :=
  t.preloadedImageSrc = s.preloadedImageSrc ∧ t.preloadedIndex = s.preloadedIndex ∧
  t.preloadedFolder = s.preloadedFolder

theorem slotOk_of_sameSlot {env : Env} {s t : ViewerState} (h : SameSlot s t)
    (hs : SlotOk env s) : SlotOk env t := by
  unfold SlotOk at *
  rw [h.1, h.2.1, h.2.2]
  exact hs

theorem display_inv (env : Env) (s : ViewerState) (h1 : IndexInv s)
    (h2 : SlotOk env s) (h3 : ImgsOk env s) :
    Inv env (displayCurrentImage env s) := by
  simp only [displayCurrentImage]
  split
  · split
    · exact preload_inv env _ (indexInv_of_samePos (by unfold SamePos; simp) h1)
        (imgsOk_of_samePos (by unfold SamePos; simp) h3)
    · exact ⟨indexInv_of_samePos (by unfold SamePos clearPreload; simp) h1,
        slotOk_of_cleared (by simp [clearPreload]),
        imgsOk_of_samePos (by unfold SamePos clearPreload; simp) h3⟩
  · split
    · exact preload_inv env _ (indexInv_of_samePos (by unfold SamePos; simp) h1)
        (imgsOk_of_samePos (by unfold SamePos; simp) h3)
    · exact ⟨indexInv_of_samePos (by unfold SamePos; simp) h1,
        slotOk_of_sameSlot (by unfold SameSlot; simp) h2,
        imgsOk_of_samePos (by unfold SamePos; simp) h3⟩

theorem clearPreload_inv {env : Env} {s : ViewerState} (h : Inv env s) :
    Inv env (clearPreload s) :=
  ⟨h.1, slotOk_of_cleared rfl, h.2.2⟩

theorem stopSlideshow_inv {env : Env} {s : ViewerState} (h : Inv env s) :
    Inv env (stopSlideshow s) :=
  ⟨h.1, h.2.1, h.2.2⟩

theorem loadImagesForPath_inv (env : Env) (p : String) (s : ViewerState)
    (h : Inv env s) : Inv env (loadImagesForPath env p s) := by
  simp only [loadImagesForPath, stopSlideshow, clearPreload]
  split
  · exact h
  · split
    · rename_i imgs himgs
      apply display_inv
      · dsimp only [IndexInv]
        constructor
        · intro hne
          have : imgs.length > 0 := by
            cases imgs with
            | nil => exact absurd rfl hne
            | cons a as => simp
          simp only [this, if_pos]
          constructor
          · omega
          · exact_mod_cast this
        · constructor
          · intro hit
            split at hit
            · exact absurd hit (by simp)
            · rename_i hlen
              cases imgs with
              | nil => rfl
              | cons a as => simp at hlen
          · intro hnil
            rw [hnil]
            simp
      · exact slotOk_of_cleared rfl
      · dsimp only [ImgsOk]
        right
        exact himgs
    · exact ⟨⟨fun hne => absurd rfl hne, by simp⟩, slotOk_of_cleared rfl, Or.inl rfl⟩

theorem handleFolderSelected_inv (env : Env) (p : String) (s : ViewerState)
    (h : Inv env s) : Inv env (handleFolderSelected env p s) := by
  simp only [handleFolderSelected]
  split
  · exact h
  · split
    · exact h
    · split
      · exact clearPreload_inv (loadImagesForPath_inv env p _ ⟨h.1, h.2.1, h.2.2⟩)
      · exact clearPreload_inv (loadImagesForPath_inv env p _ h)

theorem goToLastVisitedFolder_inv (env : Env) (s : ViewerState)
    (h : Inv env s) : Inv env (goToLastVisitedFolder env s) := by
  simp only [goToLastVisitedFolder]
  split
  · exact h
  · exact handleFolderSelected_inv env _ s h

theorem nextImage_inv (env : Env) (s : ViewerState) (h : Inv env s) :
    Inv env (nextImage env s) := by
  obtain ⟨h1, h2, h3⟩ := h
  simp only [nextImage]
  split
  · exact ⟨h1, h2, h3⟩
  · split
    · -- past the end of the current folder: scan for the next leaf folder
      split
      · exact ⟨h1, h2, h3⟩
      · rename_i f hf
        split
        · -- matching preload slot: consume it
          rename_i hhit
          obtain ⟨hfold, hidx0, hsrc⟩ := hhit
          obtain ⟨imgs0, hok0, hge0, hlt0⟩ := h2 hsrc
          rw [← hfold] at hok0
          split
          · rename_i e herr
            rw [herr] at hok0
            cases hok0
          · rename_i imgs himgs
            rw [himgs] at hok0
            have himgs0 : imgs = imgs0 := by simpa using hok0
            apply preload_inv
            · dsimp only [IndexInv, clearPreload]
              have hpos : (0 : Int) < imgs.length := by
                rw [himgs0]
                omega
              constructor
              · intro _
                exact ⟨le_refl 0, hpos⟩
              · constructor
                · intro hit
                  exact absurd hit (by simp)
                · intro hnil
                  rw [hnil] at hpos
                  simp at hpos
            · dsimp only [ImgsOk, clearPreload]
              right
              exact himgs
        · exact handleFolderSelected_inv env f s ⟨h1, h2, h3⟩
    · -- advance within the current folder
      rename_i hwithin
      simp only [decide_eq_true_eq, Bool.or_eq_true, not_or] at hwithin
      have hne : s.images ≠ [] := by
        intro hnil
        rw [hnil] at hwithin
        simp at hwithin
      have hidx := h1.1 hne
      have hbound : s.currentIndex + 1 < (s.images.length : Int) := by omega
      have hIdxInv : ∀ t : ViewerState, t.images = s.images →
          t.currentIndex = s.currentIndex + 1 → IndexInv t := by
        intro t himg hcur
        dsimp only [IndexInv]
        rw [himg, hcur]
        refine ⟨fun _ => ⟨by omega, hbound⟩, ?_, fun hnil => absurd hnil hne⟩
        intro hit
        omega
      split
      · apply preload_inv
        · exact hIdxInv _ rfl rfl
        · dsimp only [ImgsOk, clearPreload]
          exact h3
      · apply display_inv
        · exact hIdxInv _ rfl rfl
        · exact slotOk_of_sameSlot (by unfold SameSlot; exact ⟨rfl, rfl, rfl⟩) h2
        · exact h3

theorem prevImage_inv (env : Env) (s : ViewerState) (h : Inv env s) :
    Inv env (prevImage env s) := by
  obtain ⟨h1, h2, h3⟩ := h
  simp only [prevImage, clearPreload]
  split
  · exact ⟨h1, h2, h3⟩
  · rename_i hlen
    have hne : s.images ≠ [] := by
      intro hnil
      rw [hnil] at hlen
      simp at hlen
    have hidx := h1.1 hne
    apply display_inv
    · dsimp only [IndexInv]
      have hlen1 : 1 ≤ (s.images.length : Int) := by
        have h0 : s.images.length ≠ 0 := by
          intro h0
          exact hne (List.length_eq_zero.mp h0)
        omega
      constructor
      · intro _
        split <;> omega
      · constructor
        · intro hit
          split at hit <;> omega
        · intro hnil
          exact absurd hnil hne
    · exact slotOk_of_cleared rfl
    · exact h3

theorem goToNextLeafFolder_inv (env : Env) (s : ViewerState) (h : Inv env s) :
    Inv env (goToNextLeafFolder env s) := by
  simp only [goToNextLeafFolder]
  split
  · exact h
  · split
    · split
      · exact handleFolderSelected_inv env _ s h
      · exact h
    · exact handleFolderSelected_inv env _ s h

theorem goToPrevLeafFolder_inv (env : Env) (s : ViewerState) (h : Inv env s) :
    Inv env (goToPrevLeafFolder env s) := by
  simp only [goToPrevLeafFolder]
  split
  · exact h
  · split
    · split
      · exact handleFolderSelected_inv env _ s h
      · exact h
    · exact handleFolderSelected_inv env _ s h

theorem goToRandomFolder_inv (env : Env) (r : Nat) (s : ViewerState)
    (h : Inv env s) : Inv env (goToRandomFolder env r s) := by
  simp only [goToRandomFolder]
  split
  · exact h
  · split <;> split
    · exact handleFolderSelected_inv env _ s h
    · exact h
    · exact handleFolderSelected_inv env _ s h
    · exact h

theorem displayRandomImageInFolder_inv (env : Env) (r : Nat) (s : ViewerState)
    (h : Inv env s) (hr : 1 < s.images.length → r < s.images.length) :
    Inv env (displayRandomImageInFolder env r s) := by
  obtain ⟨h1, h2, h3⟩ := h
  simp only [displayRandomImageInFolder]
  split
  · exact ⟨h1, h2, h3⟩
  · rename_i hlen
    simp only [decide_eq_true_eq, not_lt] at hlen
    have hne : s.images ≠ [] := by
      intro hnil
      rw [hnil] at hlen
      simp at hlen
    apply display_inv
    · dsimp only [IndexInv]
      constructor
      · intro _
        split
        · rename_i h1len
          constructor
          · omega
          · rw [h1len]
            omega
        · rename_i h1len
          have : 1 < s.images.length := by
            rcases Nat.lt_or_ge 1 s.images.length with hgt | hle
            · exact hgt
            · interval_cases hl : s.images.length <;> simp_all
          have := hr this
          constructor
          · omega
          · exact_mod_cast this
      · constructor
        · intro hit
          split at hit <;> omega
        · intro hnil
          exact absurd hnil hne
    · exact slotOk_of_sameSlot (by unfold SameSlot; exact ⟨rfl, rfl, rfl⟩) h2
    · exact h3

theorem displayRandomImageInAllFolders_inv (env : Env) (rf : Nat)
    (rand : Nat → Nat) (s : ViewerState) (h : Inv env s)
    (hrand : ∀ n, 0 < n → rand n < n) :
    Inv env (displayRandomImageInAllFolders env rf rand s) := by
  obtain ⟨h1, h2, h3⟩ := h
  simp only [displayRandomImageInAllFolders]
  split
  · exact ⟨h1, h2, h3⟩
  · split
    · exact ⟨⟨fun hne => absurd rfl hne, by simp⟩,
        slotOk_of_sameSlot (by unfold SameSlot; exact ⟨rfl, rfl, rfl⟩) h2, Or.inl rfl⟩
    · rename_i imgs himgs
      split
      · rename_i hlen
        have hri := hrand imgs.length hlen
        split
        · refine ⟨?_, slotOk_of_sameSlot (by unfold SameSlot; exact ⟨rfl, rfl, rfl⟩) h2, ?_⟩
          · dsimp only [IndexInv]
            refine ⟨fun _ => ⟨by omega, by exact_mod_cast hri⟩, ?_, ?_⟩
            · intro hit
              omega
            · intro hnil
              rw [hnil] at hlen
              simp at hlen
          · dsimp only [ImgsOk]
            right
            exact himgs
        · exact ⟨⟨fun hne => absurd rfl hne, by simp⟩,
            slotOk_of_sameSlot (by unfold SameSlot; exact ⟨rfl, rfl, rfl⟩) h2, Or.inl rfl⟩
      · exact ⟨h1, h2, h3⟩

theorem initialState_inv (env : Env) : Inv env initialState :=
  ⟨⟨fun hne => absurd rfl hne, by simp [initialState]⟩,
    slotOk_of_cleared rfl, Or.inl rfl⟩

/-! ## Behaviour lemmas used by the claims -/

theorem display_currentFolder (env : Env) (s : ViewerState) :
    (displayCurrentImage env s).currentFolder = s.currentFolder :=
  (display_samePos env s).1

theorem display_images (env : Env) (s : ViewerState) :
    (displayCurrentImage env s).images = s.images :=
  (display_samePos env s).2.1

theorem display_currentIndex (env : Env) (s : ViewerState) :
    (displayCurrentImage env s).currentIndex = s.currentIndex :=
  (display_samePos env s).2.2.1

theorem display_slideshowActive (env : Env) (s : ViewerState) :
    (displayCurrentImage env s).slideshowActive = s.slideshowActive :=
  (display_samePos env s).2.2.2.1

theorem display_lastVisited (env : Env) (s : ViewerState) :
    (displayCurrentImage env s).lastVisitedFolder = s.lastVisitedFolder :=
  (display_samePos env s).2.2.2.2.2.2.2.1

theorem display_isTreeLoading (env : Env) (s : ViewerState) :
    (displayCurrentImage env s).isTreeLoading = s.isTreeLoading :=
  (display_samePos env s).2.2.2.2.2.2.2.2

theorem preload_currentFolder (env : Env) (s : ViewerState) :
    (preloadNextImage env s).currentFolder = s.currentFolder :=
  (preload_samePos env s).1

theorem preload_images (env : Env) (s : ViewerState) :
    (preloadNextImage env s).images = s.images :=
  (preload_samePos env s).2.1

theorem preload_currentIndex (env : Env) (s : ViewerState) :
    (preloadNextImage env s).currentIndex = s.currentIndex :=
  (preload_samePos env s).2.2.1

theorem preload_slideshowActive (env : Env) (s : ViewerState) :
    (preloadNextImage env s).slideshowActive = s.slideshowActive :=
  (preload_samePos env s).2.2.2.1

theorem preload_lastVisited (env : Env) (s : ViewerState) :
    (preloadNextImage env s).lastVisitedFolder = s.lastVisitedFolder :=
  (preload_samePos env s).2.2.2.2.2.2.2.1

theorem preload_isTreeLoading (env : Env) (s : ViewerState) :
    (preloadNextImage env s).isTreeLoading = s.isTreeLoading :=
  (preload_samePos env s).2.2.2.2.2.2.2.2

/-- What a successful folder load does to the navigation-relevant fields. -/
theorem loadImagesForPath_ok (env : Env) (p : String) (s : ViewerState)
    (imgs : List String) (hp : p ≠ "") (hok : env.listImages p = .ok imgs) :
    (loadImagesForPath env p s).currentFolder = p ∧
    (loadImagesForPath env p s).images = imgs ∧
    (loadImagesForPath env p s).currentIndex = (if imgs.length > 0 then (0 : Int) else -1) ∧
    (loadImagesForPath env p s).lastVisitedFolder = s.lastVisitedFolder ∧
    (loadImagesForPath env p s).isTreeLoading = s.isTreeLoading ∧
    (loadImagesForPath env p s).slideshowActive = false := by
  simp only [loadImagesForPath, stopSlideshow, clearPreload]
  rw [if_neg hp, hok]
  refine ⟨?_, ?_, ?_, ?_, ?_, ?_⟩
  · rw [display_currentFolder]
  · rw [display_images]
  · rw [display_currentIndex]
  · rw [display_lastVisited]
  · rw [display_isTreeLoading]
  · rw [display_slideshowActive]

/-- What selecting a genuinely different, non-empty folder does, when its
listing succeeds: the position moves there, `lastVisitedFolder` records the
folder being left (when one was set), and any slideshow is stopped. -/
theorem handleFolderSelected_go (env : Env) (p : String) (s : ViewerState)
    (imgs : List String) (hp : p ≠ "") (hcur : p ≠ s.currentFolder)
    (hok : env.listImages p = .ok imgs) :
    (handleFolderSelected env p s).currentFolder = p ∧
    (handleFolderSelected env p s).images = imgs ∧
    (handleFolderSelected env p s).currentIndex = (if imgs.length > 0 then (0 : Int) else -1) ∧
    (handleFolderSelected env p s).lastVisitedFolder =
      (if s.currentFolder ≠ "" then s.currentFolder else s.lastVisitedFolder) ∧
    (handleFolderSelected env p s).isTreeLoading = s.isTreeLoading ∧
    (handleFolderSelected env p s).slideshowActive = false := by
  simp only [handleFolderSelected]
  rw [if_neg hp, if_neg hcur]
  split
  · rename_i hcond
    have hload := loadImagesForPath_ok env p
      { s with lastVisitedFolder := s.currentFolder } imgs hp hok
    simp only [clearPreload]
    refine ⟨hload.1, hload.2.1, hload.2.2.1, ?_, hload.2.2.2.2.1, hload.2.2.2.2.2⟩
    rw [hload.2.2.2.1]
    simp [hcond.1]
  · rename_i hcond
    have hcf : s.currentFolder = "" := by
      by_contra hne
      exact hcond ⟨hne, fun heq => hcur heq.symm⟩
    have hload := loadImagesForPath_ok env p s imgs hp hok
    simp only [clearPreload]
    refine ⟨hload.1, hload.2.1, hload.2.2.1, ?_, hload.2.2.2.2.1, hload.2.2.2.2.2⟩
    rw [hload.2.2.2.1]
    simp [hcf]

theorem findNextLeafFolder_flat_ne_nil {flat leaf : List String}
    {current f : String} (h : findNextLeafFolder flat leaf current = some f) :
    flat ≠ [] := by
  unfold findNextLeafFolder at h
  split at h
  · rename_i hmem
    intro hnil
    rw [hnil] at hmem
    simp at hmem
  · cases h

/-- In a duplicate-free flat list, the next leaf folder found after the
current folder differs from the current folder. -/
theorem findNextLeafFolder_ne {flat leaf : List String} {current f : String}
    (hnd : flat.Nodup) (h : findNextLeafFolder flat leaf current = some f) :
    f ≠ current := by
  unfold findNextLeafFolder at h
  split at h
  · rename_i hmem
    have hfmem := List.mem_of_find?_eq_some h
    obtain ⟨j, hj, hgetj⟩ := List.getElem_of_mem hfmem
    rw [List.getElem_drop] at hgetj
    have hidxlt : List.indexOf current flat < flat.length :=
      List.indexOf_lt_length.mpr hmem
    have hgeti : flat[List.indexOf current flat] = current :=
      List.getElem_indexOf hidxlt
    intro hfc
    rw [hfc] at hgetj
    have hjlen : List.indexOf current flat + 1 + j < flat.length := by
      rw [List.length_drop] at hj
      omega
    have hkey : List.indexOf current flat + 1 + j = List.indexOf current flat := by
      refine (@List.Nodup.getElem_inj_iff String flat hnd _ hjlen _ hidxlt).mp ?_
      rw [hgetj, hgeti]
    omega
  · cases h

/-! ## The claims -/

/-- C1.  Cross-folder sequential advance: when `index+1 >= len(images)`,
`nextImage()` scans the flat order forward from the current folder for the
next entry that is also a leaf and switches to it at index `0`; with the
target folder's listing succeeding and non-empty, the new position is that
folder, index `0`, showing its (listed) images.  The flat list is
duplicate-free (folder paths are unique in a tree), and the target is a
non-empty path. -/
theorem nextImage_cross_folder (env : Env) (s : ViewerState) (f : String)
    (imgs : List String)
    (hnodup : s.flatFolderList.Nodup)
    (hlen : (s.images.length : Int) ≤ s.currentIndex + 1)
    (hf : findNextLeafFolder s.flatFolderList s.leafFolderList s.currentFolder = some f)
    (hf0 : f ≠ "")
    (himgs : env.listImages f = .ok imgs)
    (hne : imgs ≠ []) :
    (nextImage env s).currentFolder = f ∧ (nextImage env s).currentIndex = 0 ∧
    (nextImage env s).images = imgs := by
  have hflat : s.flatFolderList ≠ [] := findNextLeafFolder_flat_ne_nil hf
  have hfc : f ≠ s.currentFolder := findNextLeafFolder_ne hnodup hf
  have himglen : imgs.length > 0 := by
    cases imgs with
    | nil => exact absurd rfl hne
    | cons a as => simp
  simp only [nextImage]
  split
  · rename_i hearly
    exfalso
    simp only [Bool.and_eq_true, decide_eq_true_eq] at hearly
    exact hflat (List.length_eq_zero.mp hearly.2)
  · split
    · split
      · rename_i hnone
        rw [hnone] at hf
        cases hf
      · rename_i f' hf'
        have hff : f' = f := by
          have := hf'.symm.trans hf
          injection this
        subst hff
        split
        · rename_i hhit
          split
          · rename_i e herr
            rw [herr] at himgs
            cases himgs
          · rename_i imgs' himgs'
            have : imgs' = imgs := by
              have := himgs'.symm.trans himgs
              injection this
            subst this
            rw [preload_currentFolder, preload_images, preload_currentIndex]
            simp [clearPreload]
        · have hgo := handleFolderSelected_go env f' s imgs hf0 hfc himgs
          refine ⟨hgo.1, ?_, hgo.2.1⟩
          rw [hgo.2.2.1]
          simp [himglen]
    · rename_i hwithin
      exfalso
      simp only [Bool.or_eq_true, decide_eq_true_eq, not_or] at hwithin
      omega

/-- C2.  Saturating end state: at the last index with no subsequent leaf
folder in flat order, `nextImage()` only stops any active slideshow —
folder, images and index are untouched — and a second call changes nothing
more (idempotence). -/
theorem nextImage_saturating (env : Env) (s : ViewerState)
    (hne : s.images ≠ [])
    (hlen : (s.images.length : Int) ≤ s.currentIndex + 1)
    (hnone : findNextLeafFolder s.flatFolderList s.leafFolderList s.currentFolder = none) :
    nextImage env s = { s with slideshowActive := false } ∧
    nextImage env (nextImage env s) = nextImage env s := by
  have main : ∀ t : ViewerState, t.images = s.images → t.currentIndex = s.currentIndex →
      t.flatFolderList = s.flatFolderList → t.leafFolderList = s.leafFolderList →
      t.currentFolder = s.currentFolder →
      nextImage env t = { t with slideshowActive := false } := by
    intro t e1 e2 e3 e4 e5
    simp only [nextImage, e1, e2, e3, e4, e5]
    split
    · rename_i hearly
      exfalso
      simp only [Bool.and_eq_true, decide_eq_true_eq] at hearly
      exact hne (List.length_eq_zero.mp hearly.1)
    · split
      · split
        · simp [stopSlideshow, e1, e2, e3, e4, e5]
        · rename_i f hf
          rw [hf] at hnone
          cases hnone
      · rename_i hwithin
        exfalso
        simp only [Bool.or_eq_true, decide_eq_true_eq, not_or] at hwithin
        omega
  have e1 := main s rfl rfl rfl rfl rfl
  refine ⟨e1, ?_⟩
  rw [e1]
  exact main { s with slideshowActive := false } rfl rfl rfl rfl rfl

/-- C7.  Backward navigation stays in the folder: with a non-empty image
list, `prevImage()` keeps the current folder and image list, decrements the
index when positive, wraps from index `0` to the last index of the same
list, and discards the preload slot before moving (its result does not
depend on the incoming slot). -/
theorem prevImage_behavior (env : Env) (s : ViewerState) (hne : s.images ≠ []) :
    (prevImage env s).currentFolder = s.currentFolder ∧
    (prevImage env s).images = s.images ∧
    (0 < s.currentIndex → (prevImage env s).currentIndex = s.currentIndex - 1) ∧
    (s.currentIndex = 0 → (prevImage env s).currentIndex = (s.images.length : Int) - 1) ∧
    prevImage env s = prevImage env (clearPreload s) := by
  have hlen0 : ¬ s.images.length = 0 := fun h0 => hne (List.length_eq_zero.mp h0)
  refine ⟨?_, ?_, ?_, ?_, ?_⟩
  · simp only [prevImage, clearPreload]
    rw [if_neg hlen0, display_currentFolder]
  · simp only [prevImage, clearPreload]
    rw [if_neg hlen0, display_images]
  · intro h0
    simp only [prevImage, clearPreload]
    rw [if_neg hlen0, display_currentIndex]
    dsimp only
    split <;> omega
  · intro h0
    simp only [prevImage, clearPreload]
    rw [if_neg hlen0, display_currentIndex]
    dsimp only
    split <;> omega
  · simp only [prevImage, clearPreload]
    rw [if_neg hlen0, if_neg hlen0]

/-- C3.  Position index invariant: the invariant `0 <= index < len(images)`
for non-empty `images`, with `index = -1` exactly on an empty list, holds
in the initial state and is preserved by every navigation operation —
folder selection, `nextImage`, `prevImage`, the leaf-folder jumps, the
random-folder jump, the last-visited jump, and the three slideshow tick
actions.  `Inv` packages `IndexInv` with the two auxiliary consistency
facts (`SlotOk`, `ImgsOk`) that make it inductive; random draws enter as
parameters bounded like the `Math.random()` expressions they model. -/
theorem navigation_index_invariant (env : Env) (s : ViewerState)
    (h : Inv env s) (p : String) (r q rf : Nat) (rand : Nat → Nat)
    (hr : 1 < s.images.length → r < s.images.length)
    (hrand : ∀ n, 0 < n → rand n < n) :
    IndexInv s ∧ Inv env initialState ∧
    Inv env (handleFolderSelected env p s) ∧
    Inv env (nextImage env s) ∧
    Inv env (prevImage env s) ∧
    Inv env (goToNextLeafFolder env s) ∧
    Inv env (goToPrevLeafFolder env s) ∧
    Inv env (goToRandomFolder env q s) ∧
    Inv env (goToLastVisitedFolder env s) ∧
    Inv env (displayRandomImageInFolder env r s) ∧
    Inv env (displayRandomImageInAllFolders env rf rand s) :=
  ⟨h.1, initialState_inv env, handleFolderSelected_inv env p s h, nextImage_inv env s h,
   prevImage_inv env s h, goToNextLeafFolder_inv env s h, goToPrevLeafFolder_inv env s h,
   goToRandomFolder_inv env q s h, goToLastVisitedFolder_inv env s h,
   displayRandomImageInFolder_inv env r s h hr,
   displayRandomImageInAllFolders_inv env rf rand s h hrand⟩

/-- C8.  Last-visited swap: with `LastVisited = B`, current folder `A ≠ B`
(both non-empty paths, tree not loading, both listings succeeding), two
consecutive `goToLastVisitedFolder()` calls land back on folder `A` with
`LastVisited = B` again; and with `LastVisited` unset the call is a
no-op. -/
theorem goToLastVisited_swap (env : Env) (s : ViewerState) (A B : String)
    (imgsA imgsB : List String)
    (hA : s.currentFolder = A) (hB : s.lastVisitedFolder = B)
    (hAB : A ≠ B) (hA0 : A ≠ "") (hB0 : B ≠ "")
    (htree : s.isTreeLoading = false)
    (hlA : env.listImages A = .ok imgsA) (hlB : env.listImages B = .ok imgsB) :
    ((goToLastVisitedFolder env (goToLastVisitedFolder env s)).currentFolder = A ∧
     (goToLastVisitedFolder env (goToLastVisitedFolder env s)).lastVisitedFolder = B) ∧
    (∀ t : ViewerState, t.lastVisitedFolder = "" → goToLastVisitedFolder env t = t) := by
  constructor
  · have hstep1 : goToLastVisitedFolder env s = handleFolderSelected env B s := by
      simp only [goToLastVisitedFolder]
      rw [hB, htree]
      rw [if_neg (by simp [hB0])]
    have hBA : B ≠ s.currentFolder := by
      rw [hA]
      exact fun hcon => hAB hcon.symm
    have hgo1 := handleFolderSelected_go env B s imgsB hB0 hBA hlB
    have hf1 : (handleFolderSelected env B s).currentFolder = B := hgo1.1
    have hl1 : (handleFolderSelected env B s).lastVisitedFolder = A := by
      rw [hgo1.2.2.2.1, hA]
      simp [hA0]
    have ht1 : (handleFolderSelected env B s).isTreeLoading = false := by
      rw [hgo1.2.2.2.2.1, htree]
    have hstep2 : goToLastVisitedFolder env (handleFolderSelected env B s) =
        handleFolderSelected env A (handleFolderSelected env B s) := by
      simp only [goToLastVisitedFolder]
      rw [hl1, ht1]
      rw [if_neg (by simp [hA0])]
    have hAB1 : A ≠ (handleFolderSelected env B s).currentFolder := by
      rw [hf1]
      exact hAB
    have hgo2 := handleFolderSelected_go env A (handleFolderSelected env B s)
      imgsA hA0 hAB1 hlA
    rw [hstep1, hstep2]
    refine ⟨hgo2.1, ?_⟩
    rw [hgo2.2.2.2.1, hf1]
    simp [hB0]
  · intro t ht
    simp only [goToLastVisitedFolder]
    rw [ht]
    simp

theorem loadImagesForPath_stops (env : Env) (p : String) (s : ViewerState)
    (hp : p ≠ "") : (loadImagesForPath env p s).slideshowActive = false := by
  simp only [loadImagesForPath, stopSlideshow, clearPreload]
  rw [if_neg hp]
  split
  · rw [display_slideshowActive]
  · rfl

theorem handleFolderSelected_stops (env : Env) (p : String) (s : ViewerState)
    (hp : p ≠ "") (hcur : p ≠ s.currentFolder) :
    (handleFolderSelected env p s).slideshowActive = false := by
  simp only [handleFolderSelected]
  rw [if_neg hp, if_neg hcur]
  split <;> simp [clearPreload, loadImagesForPath_stops env p _ hp]

/-- Environment of the C10 counterexample: the next leaf folder's image is
listed fine, but reading it fails (so no preload slot can be filled for
it). -/
def envX : Env where
  listImages := fun p =>
    if p = ("/r/a") then .ok [("/r/a/a1.jpg")]
    else if p = ("/r/b") then .ok [("/r/b/b1.jpg")]
    else .error ("no such directory")
  readImage := fun p =>
    if p = ("/r/b/b1.jpg") then .error ("read failed") else .ok ("data")

/-- State of the C10 counterexample: sequence slideshow active, at the last
(only) image of leaf folder `/r/a`, empty preload slot, with leaf `/r/b`
still ahead in flat order. -/
def sX : ViewerState where
  currentFolder := "/r/a"
  images := ["/r/a/a1.jpg"]
  currentIndex := 0
  currentImageSrc := "data"
  isTreeLoading := false
  slideshowActive := true
  slideshowMode := .sequence
  flatFolderList := [("/r"), ("/r/a"), ("/r/b")]
  leafFolderList := [("/r/a"), ("/r/b")]
  lastVisitedFolder := ""
  preloadedImageSrc := ""
  preloadedIndex := -1
  preloadedFolder := ""

/-- C10 counterexample.  A sequence-slideshow tick that crosses from the
last image of `/r/a` into the next leaf folder `/r/b` without a matching
preload slot does switch folders — but it also stops the slideshow
(`slideshowActive` becomes `false`), although the saturating end state was
not reached: the claim's "stopped only at the saturating end state" is
false on the code. -/
theorem nextImage_cross_stops_slideshow :
    sX.slideshowActive = true ∧ sX.slideshowMode = SlideshowMode.sequence ∧
    findNextLeafFolder sX.flatFolderList sX.leafFolderList sX.currentFolder =
      some ("/r/b") ∧
    (nextImage envX sX).currentFolder = ("/r/b") ∧
    (nextImage envX sX).currentIndex = 0 ∧
    (nextImage envX sX).slideshowActive = false := by
  refine ⟨rfl, rfl, by decide, ?_, ?_, ?_⟩ <;> rfl

/-- C10 amended.  Slideshow stop policy of `nextImage()` past the end of a
folder: (i) with no subsequent leaf folder the tick stops the slideshow
(saturating end); (ii) a folder cross that consumes a matching preload
slot leaves the slideshow active; (iii) a folder cross without a matching
slot goes through the normal folder-selection path, which stops the
slideshow. -/
theorem nextImage_slideshow_stop_policy (env : Env) (s : ViewerState) (f : String)
    (hactive : s.slideshowActive = true)
    (hlen : (s.images.length : Int) ≤ s.currentIndex + 1)
    (hne : s.images ≠ []) :
    (findNextLeafFolder s.flatFolderList s.leafFolderList s.currentFolder = none →
      (nextImage env s).slideshowActive = false) ∧
    (findNextLeafFolder s.flatFolderList s.leafFolderList s.currentFolder = some f →
      f = s.preloadedFolder → (0 : Int) = s.preloadedIndex → s.preloadedImageSrc ≠ "" →
      (nextImage env s).slideshowActive = true) ∧
    (findNextLeafFolder s.flatFolderList s.leafFolderList s.currentFolder = some f →
      f ≠ "" → f ≠ s.currentFolder →
      ¬(f = s.preloadedFolder ∧ (0 : Int) = s.preloadedIndex ∧ s.preloadedImageSrc ≠ "") →
      (nextImage env s).slideshowActive = false) := by
  have hlen0 : ¬ s.images.length = 0 := fun h0 => hne (List.length_eq_zero.mp h0)
  refine ⟨?_, ?_, ?_⟩
  · intro hfind
    simp only [nextImage]
    split
    · rename_i hearly
      exfalso
      simp only [Bool.and_eq_true, decide_eq_true_eq] at hearly
      exact hlen0 hearly.1
    · split
      · split
        · rfl
        · rename_i f' hf'
          rw [hf'] at hfind
          cases hfind
      · rename_i hwithin
        exfalso
        simp only [Bool.or_eq_true, decide_eq_true_eq, not_or] at hwithin
        omega
  · intro hfind hfold hidx hsrc
    simp only [nextImage]
    split
    · rename_i hearly
      exfalso
      simp only [Bool.and_eq_true, decide_eq_true_eq] at hearly
      exact hlen0 hearly.1
    · split
      · split
        · rename_i hnone
          rw [hnone] at hfind
          cases hfind
        · rename_i f' hf'
          have : f' = f := by
            have := hf'.symm.trans hfind
            injection this
          subst this
          rw [if_pos ⟨hfold, hidx, hsrc⟩]
          split
          · exact hactive
          · rw [preload_slideshowActive]
            simp only [clearPreload]
            exact hactive
      · rename_i hwithin
        exfalso
        simp only [Bool.or_eq_true, decide_eq_true_eq, not_or] at hwithin
        omega
  · intro hfind hf0 hfc hmiss
    simp only [nextImage]
    split
    · rename_i hearly
      exfalso
      simp only [Bool.and_eq_true, decide_eq_true_eq] at hearly
      exact hlen0 hearly.1
    · split
      · split
        · rename_i hnone
          rw [hnone] at hfind
          cases hfind
        · rename_i f' hf'
          have : f' = f := by
            have := hf'.symm.trans hfind
            injection this
          subst this
          rw [if_neg hmiss]
          exact handleFolderSelected_stops env _ s hf0 hfc
      · rename_i hwithin
        exfalso
        simp only [Bool.or_eq_true, decide_eq_true_eq, not_or] at hwithin
        omega

/-- Filesystem of the C4 counterexample, root half: the root stats fine as
a directory but reading its entries fails. -/
def fsRootReadFail : FS where
  stat := fun p => if p = ("/root") then .ok true else .error ("no such file")
  readDir := fun _ => .error ("permission denied")

/-- Filesystem of the C4 counterexample, subdirectory half: everything
stats fine, `/top` lists one subdirectory `sub`, and reading `sub` fails. -/
def fsSubReadFail : FS where
  stat := fun _ => .ok true
  readDir := fun p =>
    if p = ("/top") then .ok [DirEntry.mk ("sub") true] else .error ("denied")

/-- C4 counterexample.  A read (`os.ReadDir`) failure on the root is not
fatal: `ListSubfolders` returns the root node with no children and no
error.  And a read failure on a subdirectory does not omit that subtree:
the subdirectory is included as a childless node.  Only a stat failure is
returned (root) or causes omission (subdirectory). -/
theorem listSubfolders_read_failure_swallowed :
    fsRootReadFail.stat ("/root") = .ok true ∧
    fsRootReadFail.readDir ("/root") = .error ("permission denied") ∧
    listSubfolders fsRootReadFail 2 ("/root") = .ok (.mk ("root") ("/root") []) ∧
    fsSubReadFail.readDir ("/top/sub") = .error ("denied") ∧
    listSubfolders fsSubReadFail 3 ("/top") =
      .ok (.mk ("top") ("/top") [.mk ("sub") ("/top/sub") []]) := by
  refine ⟨rfl, rfl, ?_, rfl, ?_⟩ <;> rfl

/-- C4 amended.  The actual failure policy of `ListSubfolders`: (a) a stat
failure on the root is fatal and returned; (b) a root that is not a
directory is fatal and returned; (c) a `ReadDir` failure on the root (or on
any node reached by recursion) is logged and swallowed, yielding that node
with no children; (d) with a readable root, the children are exactly the
sorted successful recursive builds of the entries; (e) an entry whose
recursive build fails is omitted while the remaining siblings are kept. -/
theorem listSubfolders_failure_policy :
    (∀ (fs : FS) (p e : String) (fuel : Nat), fs.stat p = .error e →
      listSubfolders fs (fuel + 1) p =
        .error (("failed to stat base path '") ++ p ++ ("': ") ++ e)) ∧
    (∀ (fs : FS) (p : String) (fuel : Nat), fs.stat p = .ok false →
      listSubfolders fs (fuel + 1) p = .error (("'") ++ p ++ ("' is not a directory"))) ∧
    (∀ (fs : FS) (p e : String) (fuel : Nat), fs.stat p = .ok true →
      fs.readDir p = .error e →
      listSubfolders fs (fuel + 1) p = .ok (.mk (baseName p) p [])) ∧
    (∀ (fs : FS) (p : String) (entries : List DirEntry) (fuel : Nat),
      fs.stat p = .ok true → fs.readDir p = .ok entries →
      listSubfolders fs (fuel + 1) p =
        .ok (.mk (baseName p) p
          (sortLe folderNatLe (buildChildrenWith (listSubfolders fs fuel) p entries)))) ∧
    (∀ (rec : String → Except String Folder) (basePath : String) (e : DirEntry)
      (msg : String) (entries : List DirEntry),
      rec (joinPath basePath e.name) = .error msg →
      buildChildrenWith rec basePath (e :: entries) =
        buildChildrenWith rec basePath entries) := by
  refine ⟨?_, ?_, ?_, ?_, ?_⟩
  · intro fs p e fuel hstat
    simp only [listSubfolders]
    rw [hstat]
  · intro fs p fuel hstat
    simp only [listSubfolders]
    rw [hstat]
  · intro fs p e fuel hstat hread
    simp only [listSubfolders]
    rw [hstat, hread]
  · intro fs p entries fuel hstat hread
    simp only [listSubfolders]
    rw [hstat, hread]
  · intro rec basePath e msg entries hfail
    exact buildChildrenWith_skip hfail entries

/-- C5.  Natural child ordering: every tree `ListSubfolders` returns has
every node's children sorted by case-insensitive natural order of name;
in particular siblings `img2` and `img10` sort as `[img2, img10]`, never
the other way (the comparator is spec-modelled, as the `natsort` package
is an external dependency). -/
theorem listSubfolders_natural_order (fs : FS) (fuel : Nat) (p : String)
    (t : Folder) (h : listSubfolders fs fuel p = .ok t) :
    allSortedB t = true ∧
    sortLe folderNatLe
        [Folder.mk ("img10") ("/x/img10") [], Folder.mk ("img2") ("/x/img2") []] =
      [Folder.mk ("img2") ("/x/img2") [], Folder.mk ("img10") ("/x/img10") []] ∧
    natLeB ("img2") ("img10") = true ∧ natLeB ("img10") ("img2") = false :=
  ⟨listSubfolders_allSorted fs fuel p t h, by rfl, by rfl, by rfl⟩

theorem joinPath_length (base name : String) :
    (joinPath base name).length = base.length + 1 + name.length := by
  have h1 : ("/" : String).length = 1 := rfl
  simp only [joinPath, String.length_append, h1]

/-- Below the root of the walk (any directory whose path is strictly
longer than `dirPath`), the `ListImages` walk collects nothing: the
`filepath.Dir(path) == dirPath` filter rejects everything there. -/
theorem walkEntriesWith_deep_nil {rec : String → Except String (List String)}
    {dirPath cur : String} (hcur : dirPath.length < cur.length)
    (hrec : ∀ q fl, dirPath.length < q.length → rec q = .ok fl → fl = []) :
    ∀ (entries : List DirEntry) (fl : List String),
      walkEntriesWith rec dirPath cur entries = .ok fl → fl = [] := by
  intro entries
  induction entries with
  | nil =>
    intro fl h
    simp only [walkEntriesWith] at h
    injection h with h'
    exact h'.symm
  | cons e rest ih =>
    intro fl h
    simp only [walkEntriesWith] at h
    split at h
    · split at h
      · cases h
      · rename_i collected hcoll
        split at h
        · cases h
        · rename_i more hmore
          have hc : collected = [] := hrec _ _ (by rw [joinPath_length]; omega) hcoll
          have hm : more = [] := ih more hmore
          injection h with h'
          rw [← h', hc, hm]
          rfl
    · split at h
      · cases h
      · rename_i more hmore
        have hm : more = [] := ih more hmore
        have hne : ¬(cur = dirPath) := by
          intro hEq
          rw [hEq] at hcur
          omega
        injection h with h'
        rw [← h', hm]
        simp [hne]

theorem walkImages_deep_nil (fs : FS) (dirPath : String) :
    ∀ (fuel : Nat) (cur : String), dirPath.length < cur.length →
      ∀ fl, walkImages fs dirPath fuel cur = .ok fl → fl = [] := by
  intro fuel
  induction fuel with
  | zero =>
    intro cur hcur fl h
    simp [walkImages] at h
  | succ fuel ih =>
    intro cur hcur fl h
    simp only [walkImages] at h
    split at h
    · cases h
    · exact walkEntriesWith_deep_nil hcur
        (fun q fl2 hq hok => ih q hq fl2 hok) _ fl h

/-- At the root of the walk, the collected files are exactly the direct
non-directory entries with allow-listed extensions, as joined paths. -/
theorem walkEntriesWith_top_mem {rec : String → Except String (List String)}
    {dirPath : String}
    (hrec : ∀ q fl, dirPath.length < q.length → rec q = .ok fl → fl = []) :
    ∀ (entries : List DirEntry) (fl : List String),
      walkEntriesWith rec dirPath dirPath entries = .ok fl →
      ∀ pth, pth ∈ fl ↔ ∃ e ∈ entries, e.isDir = false ∧
        isValidExt e.name = true ∧ pth = joinPath dirPath e.name := by
  intro entries
  induction entries with
  | nil =>
    intro fl h pth
    simp only [walkEntriesWith] at h
    injection h with h'
    rw [← h']
    simp
  | cons e rest ih =>
    intro fl h pth
    simp only [walkEntriesWith] at h
    split at h
    · rename_i hdir
      split at h
      · cases h
      · rename_i collected hcoll
        split at h
        · cases h
        · rename_i more hmore
          have hc : collected = [] := hrec _ _ (by rw [joinPath_length]; omega) hcoll
          injection h with h'
          rw [← h', hc]
          simp only [List.nil_append]
          rw [ih more hmore pth]
          constructor
          · rintro ⟨e2, hmem, he2⟩
            exact ⟨e2, List.mem_cons_of_mem e hmem, he2⟩
          · rintro ⟨e2, hmem, hnd, hv, hp⟩
            rcases List.mem_cons.mp hmem with rfl | hmem2
            · rw [hdir] at hnd
              cases hnd
            · exact ⟨e2, hmem2, hnd, hv, hp⟩
    · rename_i hdir
      have hdirf : e.isDir = false := by
        cases hb : e.isDir
        · rfl
        · exact absurd hb hdir
      split at h
      · cases h
      · rename_i more hmore
        injection h with h'
        rw [← h']
        simp only [List.mem_append]
        rw [ih more hmore pth]
        constructor
        · rintro (hin | ⟨e2, hmem, he2⟩)
          · by_cases hv : isValidExt e.name = true
            · rw [if_pos (by simp [hv])] at hin
              simp only [List.mem_singleton] at hin
              exact ⟨e, List.mem_cons_self e rest, hdirf, hv, hin⟩
            · rw [if_neg (by simp [hv])] at hin
              simp at hin
          · exact ⟨e2, List.mem_cons_of_mem e hmem, he2⟩
        · rintro ⟨e2, hmem, hnd, hv, hp⟩
          rcases List.mem_cons.mp hmem with rfl | hmem2
          · left
            rw [if_pos (by simp [hv])]
            simp [hp]
          · right
            exact ⟨e2, hmem2, hnd, hv, hp⟩

/-- Filesystem showing the walk's abort path: `/d` itself is readable and
holds the image `ok.jpg`, but its subdirectory `bad` is unreadable, so the
whole `ListImages('/d')` call fails. -/
def fsC6sub : FS where
  stat := fun _ => .ok true
  readDir := fun p =>
    if p = ("/d") then
      .ok [DirEntry.mk ("bad") true, DirEntry.mk ("ok.jpg") false]
    else .error ("denied")

/-- C6.  `ListImages` contract: any read failure during the walk — on
`dirPath` itself or on any descendant subdirectory the walk descends into —
aborts the call with that error (concretely: a readable `/d` with an
unreadable subdirectory fails); when the walk succeeds, the result is
exactly the direct non-directory children of `dirPath` whose extension is
allow-listed case-insensitively, as joined paths, sorted byte-wise
lexicographically; the allow-list check accepts exactly
`{.jpg,.jpeg,.png,.gif,.bmp,.webp,.raf}` after lower-casing, and the
scenario files `file1.jpg, file10.jpg, file2.jpg` come back in
lexicographic order (not natural order). -/
theorem listImages_contract :
    (∀ (fs : FS) (fuel : Nat) (dirPath e : String),
      walkImages fs dirPath fuel dirPath = .error e →
      listImages fs fuel dirPath = .error e) ∧
    (∀ (fs : FS) (fuel : Nat) (dirPath e : String), fs.readDir dirPath = .error e →
      listImages fs (fuel + 1) dirPath = .error e) ∧
    listImages fsC6sub 2 ("/d") = .error ("denied") ∧
    (∀ (fs : FS) (fuel : Nat) (dirPath : String) (entries : List DirEntry)
      (files : List String), fs.readDir dirPath = .ok entries →
      listImages fs (fuel + 1) dirPath = .ok files →
      files.Pairwise (fun a b => strLe a b = true) ∧
      (∀ pth, pth ∈ files ↔ ∃ e ∈ entries, e.isDir = false ∧
        isValidExt e.name = true ∧ pth = joinPath dirPath e.name)) ∧
    (∀ name : String, isValidExt name = true ↔
      lowerStr (extOf name) ∈ validExtensions) ∧
    sortLe strLe [("file10.jpg"), ("file2.jpg"), ("file1.jpg")] =
      [("file1.jpg"), ("file10.jpg"), ("file2.jpg")] := by
  refine ⟨?_, ?_, by rfl, ?_, ?_, by rfl⟩
  · intro fs fuel dirPath e hw
    simp only [listImages]
    rw [hw]
  · intro fs fuel dirPath e he
    simp only [listImages, walkImages]
    rw [he]
  · intro fs fuel dirPath entries files hok hli
    simp only [listImages, walkImages] at hli
    rw [hok] at hli
    split at hli
    · cases hli
    · rename_i fl hfl
      injection hli with h'
      have hrec : ∀ q fl2, dirPath.length < q.length →
          walkImages fs dirPath fuel q = .ok fl2 → fl2 = [] :=
        fun q fl2 hq hok2 => walkImages_deep_nil fs dirPath fuel q hq fl2 hok2
      constructor
      · rw [← h']
        exact pairwise_sortLe strLe_trans strLe_total _
      · intro pth
        rw [← h', mem_sortLe]
        exact walkEntriesWith_top_mem hrec entries fl hfl pth
  · intro name
    simp [isValidExt, List.contains_iff_exists_mem_beq]

/-- C9.  RAF panic containment: whenever the external extractor panics on
a `.raf` path, the `ReadImage` boundary recovers, returning normally with
an empty payload and the decode-failure error, instead of propagating the
panic. -/
theorem readImageRaf_panic_contained (env : RafEnv) (filePath msg : String)
    (h : env.readRAF filePath = .panics msg) :
    readImageRaf env filePath =
      ((""), some (("panic occurred while decoding RAF file ") ++ filePath ++
        (": ") ++ msg)) := by
  simp only [readImageRaf]
  rw [h]

/-! ## Concrete instances (witnesses)

`envW` / `sW` realize the spec's §8 scenario: folder `/root/2024-01` holds
`a.jpg, b.jpg`, the next leaf `/root/2024-02` holds `c.jpg`, and the
position is at `b.jpg` (index 1). -/

def envW : Env where
  listImages := fun p =>
    if p = ("/root/2024-01") then .ok [("/root/2024-01/a.jpg"), ("/root/2024-01/b.jpg")]
    else if p = ("/root/2024-02") then .ok [("/root/2024-02/c.jpg")]
    else .error ("no such directory")
  readImage := fun _ => .ok ("imagedata")

def sW : ViewerState where
  currentFolder := "/root/2024-01"
  images := [("/root/2024-01/a.jpg"), ("/root/2024-01/b.jpg")]
  currentIndex := 1
  currentImageSrc := "imagedata"
  isTreeLoading := false
  slideshowActive := false
  slideshowMode := .sequence
  flatFolderList := [("/root"), ("/root/2024-01"), ("/root/2024-02")]
  leafFolderList := [("/root/2024-01"), ("/root/2024-02")]
  lastVisitedFolder := ""
  preloadedImageSrc := ""
  preloadedIndex := -1
  preloadedFolder := ""

/-- The same scenario one step later: at the only image of the last leaf
folder, with a sequence slideshow running. -/
def sW2 : ViewerState :=
  { sW with currentFolder := "/root/2024-02",
            images := [("/root/2024-02/c.jpg")], currentIndex := 0,
            slideshowActive := true }

/-- The swap scenario: at folder `/root/2024-01` with
`LastVisited = /root/2024-02`. -/
def sW8 : ViewerState := { sW with lastVisitedFolder := "/root/2024-02" }

theorem nextImage_cross_folder_witness :
    (nextImage envW sW).currentFolder = ("/root/2024-02") ∧
    (nextImage envW sW).currentIndex = 0 ∧
    (nextImage envW sW).images = [("/root/2024-02/c.jpg")] :=
  nextImage_cross_folder envW sW ("/root/2024-02") [("/root/2024-02/c.jpg")]
    (by decide) (by decide) (by rfl) (by decide) (by rfl) (by decide)

theorem nextImage_saturating_witness :
    nextImage envW sW2 = { sW2 with slideshowActive := false } ∧
    nextImage envW (nextImage envW sW2) = nextImage envW sW2 :=
  nextImage_saturating envW sW2 (by decide) (by decide) (by rfl)

theorem navigation_index_invariant_witness :
    Inv envW (nextImage envW sW) ∧ Inv envW (prevImage envW sW) :=
  ⟨(navigation_index_invariant envW sW
      ⟨⟨fun _ => by decide, by decide⟩, fun hsrc => absurd rfl hsrc, Or.inr rfl⟩
      ("/root/2024-02") 0 0 0 (fun _ => 0) (by decide) (fun n hn => hn)).2.2.2.1,
   (navigation_index_invariant envW sW
      ⟨⟨fun _ => by decide, by decide⟩, fun hsrc => absurd rfl hsrc, Or.inr rfl⟩
      ("/root/2024-02") 0 0 0 (fun _ => 0) (by decide) (fun n hn => hn)).2.2.2.2.1⟩

theorem prevImage_behavior_witness :
    (prevImage envW sW).currentFolder = sW.currentFolder ∧
    (prevImage envW sW).images = sW.images ∧
    (0 < sW.currentIndex → (prevImage envW sW).currentIndex = sW.currentIndex - 1) ∧
    (sW.currentIndex = 0 → (prevImage envW sW).currentIndex = (sW.images.length : Int) - 1) ∧
    prevImage envW sW = prevImage envW (clearPreload sW) :=
  prevImage_behavior envW sW (by decide)

theorem goToLastVisited_swap_witness :
    ((goToLastVisitedFolder envW (goToLastVisitedFolder envW sW8)).currentFolder =
       ("/root/2024-01") ∧
     (goToLastVisitedFolder envW (goToLastVisitedFolder envW sW8)).lastVisitedFolder =
       ("/root/2024-02")) ∧
    (∀ t : ViewerState, t.lastVisitedFolder = "" →
      goToLastVisitedFolder envW t = t) :=
  goToLastVisited_swap envW sW8 ("/root/2024-01") ("/root/2024-02")
    [("/root/2024-01/a.jpg"), ("/root/2024-01/b.jpg")] [("/root/2024-02/c.jpg")]
    (by rfl) (by rfl) (by decide) (by decide) (by decide) (by rfl) (by rfl) (by rfl)

theorem nextImage_slideshow_stop_policy_witness :
    (nextImage envX sX).slideshowActive = false :=
  (nextImage_slideshow_stop_policy envX sX ("/r/b") (by rfl) (by decide)
      (by decide)).2.2 (by decide) (by decide) (by decide) (by decide)

def fsRootStatFail : FS where
  stat := fun _ => .error ("no such file")
  readDir := fun _ => .ok []

theorem listSubfolders_failure_policy_witness :
    listSubfolders fsRootStatFail 1 ("/gone") =
      .error (("failed to stat base path '") ++ ("/gone") ++ ("': ") ++ ("no such file")) :=
  listSubfolders_failure_policy.1 fsRootStatFail ("/gone") ("no such file") 0 (by rfl)

/-- Filesystem of the C5 witness: `/pics` with subfolders listed on disk
as `img10, img2`. -/
def fsW : FS where
  stat := fun _ => .ok true
  readDir := fun p =>
    if p = ("/pics") then .ok [DirEntry.mk ("img10") true, DirEntry.mk ("img2") true]
    else .ok []

theorem listSubfolders_natural_order_witness :
    allSortedB (Folder.mk ("pics") ("/pics")
      [Folder.mk ("img2") ("/pics/img2") [],
       Folder.mk ("img10") ("/pics/img10") []]) = true ∧
    sortLe folderNatLe
        [Folder.mk ("img10") ("/x/img10") [], Folder.mk ("img2") ("/x/img2") []] =
      [Folder.mk ("img2") ("/x/img2") [], Folder.mk ("img10") ("/x/img10") []] ∧
    natLeB ("img2") ("img10") = true ∧ natLeB ("img10") ("img2") = false :=
  listSubfolders_natural_order fsW 2 ("/pics")
    (Folder.mk ("pics") ("/pics")
      [Folder.mk ("img2") ("/pics/img2") [],
       Folder.mk ("img10") ("/pics/img10") []]) (by rfl)

/-- Filesystem of the C6 witness: `/d` holds `file10.jpg, file2.jpg,
file1.jpg` (in on-disk order); everything else is unreadable. -/
def fsC6 : FS where
  stat := fun _ => .ok true
  readDir := fun p =>
    if p = ("/d") then
      .ok [DirEntry.mk ("file10.jpg") false, DirEntry.mk ("file2.jpg") false,
           DirEntry.mk ("file1.jpg") false]
    else .error ("denied")

theorem listImages_contract_witness :
    listImages fsC6 1 ("/d") =
      .ok [("/d/file1.jpg"), ("/d/file10.jpg"), ("/d/file2.jpg")] ∧
    listImages fsC6 1 ("/x") = .error ("denied") ∧
    listImages fsC6sub 2 ("/d") = .error ("denied") :=
  ⟨by rfl, listImages_contract.2.1 fsC6 0 ("/x") ("denied") (by rfl),
   listImages_contract.2.2.1⟩

def rafEnvW : RafEnv where
  readRAF := fun p =>
    if p = ("/pics/x.raf") then .panics ("index out of range") else .returns none

theorem readImageRaf_panic_contained_witness :
    readImageRaf rafEnvW ("/pics/x.raf") =
      ((""), some (("panic occurred while decoding RAF file ") ++ ("/pics/x.raf") ++
        (": ") ++ ("index out of range"))) :=
  readImageRaf_panic_contained rafEnvW ("/pics/x.raf") ("index out of range") (by rfl)

end PicViewer
